import Mathlib

/-!
# A shallow embedding of the nlisp interpreter

This file embeds the nlisp runtime (`src/atom.rs`, `src/parser.rs`,
`src/closure.rs`, `src/vm.rs`, `src/primitives.rs`) into Lean and proves
properties of the embedded definitions.

Modelling conventions:
* `Atom::Number(f32)` is modelled with `ℚ`.  Every numeric value appearing in
  the properties below (small integers, simple decimal literals) is exactly
  representable in `f32`, and none of the properties depends on `f32`
  rounding, infinities or NaN.
* `&'a str` is modelled with `String`; source text is a `List Char` and the
  parser slices it with `take`/`drop`, mirroring the byte-range slicing of
  the Rust code.
* Rust character classes (`is_alphabetic`, `is_numeric`,
  `is_ascii_punctuation`, `is_whitespace`) are modelled on the ASCII range,
  which is exact for them there; all inputs considered here are ASCII.
* The `BTreeMap` global symbol table is modelled as an association list whose
  `insert` replaces the value of an existing key in place.
* Native function pointers are modelled by an enumeration `PrimFn` of the
  builtins registered by `NlispVm::new`.
* Recursive evaluation (`NlispVm::evaluate` and the primitives) is modelled
  with a fuel parameter: every mutually recursive function consumes one unit
  of fuel on entry and yields `none` when fuel is exhausted.  `none` is an
  artifact of the embedding (the Rust code would simply keep recursing);
  `some (vm, r)` means the Rust code returns `r` with global table `vm`.
* `println!` side effects (in `print`/`printd`) are dropped; their value
  behaviour and `vm` threading are kept.
-/

/-- `VmError` from `src/vm.rs`. -/
inductive VmError where
  | nonEvaluable
  | notAFunction
  | invalidUsage
  | notASymbol
deriving DecidableEq, Repr

/-- `ParseError` from `src/parser.rs`.  `numberError` keeps only the
position (the underlying `ParseFloatError` payload is collapsed). -/
inductive ParseError where
  | invalidCharacter (pos : Nat)
  | numberError (pos : Nat)
  | incompleteString
  | incompleteList
deriving DecidableEq, Repr

/-- `UpvalueRef` from `src/vm.rs`: an index and the symbol's name. -/
structure UpvalueRef where
  idx : Nat
  name : String
deriving DecidableEq, Repr

/-- The native functions registered in `NlispVm::new` (`src/vm.rs`). -/
inductive PrimFn where
  | printP
  | printdP
  | ifP
  | lambdaP
  | quoteP
  | typeP
  | globalP
  | resolveP
  | evalP
  | sumP
  | productP
  | eqP
  | negP
deriving DecidableEq, Repr

/-- `Atom` from `src/atom.rs`.  The `closure` case inlines the two fields of
`Closure` (`src/closure.rs`): its optional upvalue slots and its code. -/
inductive Atom where
  | symbol (s : String)
  | number (n : ℚ)
  | string (s : String)
  | list (l : List Atom)
  | bool (b : Bool)
  | nil
  | error (e : VmError)
  | upvalue (r : UpvalueRef)
  | closure (upvalues : Option (List Atom)) (code : List Atom)
  | nativeFunction (f : PrimFn)

/-- `Closure` from `src/closure.rs`: optional captured upvalue slots plus a
code body. -/
structure Closure where
  upvalues : Option (List Atom)
  code : List Atom

/-- View a `Closure` as the corresponding `Atom`. -/
def Closure.toAtom (c : Closure) : Atom := .closure c.upvalues c.code

mutual

/-- `PartialEq for Atom` from `src/atom.rs`: structural per variant, except
that any two `NativeFunction` atoms are equal; the catch-all arm compares
discriminants, which makes `Nil = Nil` true and all cross-variant pairs
false. -/
def Atom.beq : Atom → Atom → Bool
  | .symbol a, .symbol b => a == b
  | .number a, .number b => a == b
  | .string a, .string b => a == b
  | .list a, .list b => Atom.beqList a b
  | .bool a, .bool b => a == b
  | .error a, .error b => a == b
  | .upvalue a, .upvalue b => a == b
  | .closure u1 c1, .closure u2 c2 =>
      Atom.beqOptList u1 u2 && Atom.beqList c1 c2
  | .nativeFunction _, .nativeFunction _ => true
  | .nil, .nil => true
  | _, _ => false

/-- Element-wise equality of atom lists (the derived slice equality). -/
def Atom.beqList : List Atom → List Atom → Bool
  | [], [] => true
  | a :: as1, b :: bs => Atom.beq a b && Atom.beqList as1 bs
  | _, _ => false

/-- Equality of optional upvalue arrays (the derived `Option` equality). -/
def Atom.beqOptList : Option (List Atom) → Option (List Atom) → Bool
  | none, none => true
  | some a, some b => Atom.beqList a b
  | _, _ => false

end

/-- `Atom::get_type_str` from `src/atom.rs`. -/
def Atom.getTypeStr : Atom → String
  | .symbol _ => "Symbol"
  | .number _ => "Number"
  | .string _ => "String"
  | .list _ => "List"
  | .bool _ => "Bool"
  | .nil => "Nil"
  | .upvalue _ => "Upvalue"
  | .closure _ _ => "Closure"
  | .nativeFunction _ => "NativeFunction"
  | .error e =>
    match e with
    | .nonEvaluable => "Error:NonEvaluable"
    | .notAFunction => "Error:NotAFunction"
    | .invalidUsage => "Error:InvalidUsage"
    | .notASymbol => "Error:NotASymbol"

/-- `Closure::resolve_ref` from `src/closure.rs`: look up an upvalue slot,
falling back to `Nil` when there is no upvalue array or the index is out of
range. -/
def Closure.resolveRef (c : Closure) (r : UpvalueRef) : Atom :=
  match c.upvalues with
  | some us =>
    match us.get? r.idx with
    | some u => u
    | none => .nil
  | none => .nil

/-- `Closure::resolve` from `src/closure.rs`: substitute an `Upvalue` atom by
its slot value; every other atom passes through unchanged. -/
def Closure.resolve (c : Closure) (a : Atom) : Atom :=
  match a with
  | .upvalue r => c.resolveRef r
  | _ => a

mutual

/-- `upvalueize_symbols` from `src/closure.rs`: rewrite every `Symbol` whose
text matches an entry of `upvalueSymbols` into an `Upvalue` reference to the
first matching index, descending into nested lists. -/
def upvalueizeSymbols : List Atom → List String → List Atom
  | [], _ => []
  | a :: rest, syms => upvalueizeAtom a syms :: upvalueizeSymbols rest syms

/-- One step of `upvalueize_symbols` on a single atom (the closure passed to
`map` in the Rust code). -/
def upvalueizeAtom : Atom → List String → Atom
  | .symbol s, syms =>
    match (syms.enum.find? fun p => p.2 == s) with
    | some (i, symb) => .upvalue ⟨i, symb⟩
    | none => .symbol s
  | .list l, syms => .list (upvalueizeSymbols l syms)
  | a, _ => a

end

/-- `Closure::compile_thin` from `src/closure.rs`. -/
def Closure.compileThin (code : List Atom) : Closure :=
  { upvalues := none, code := code }

/-- `Closure::compile` from `src/closure.rs`: empty upvalue list takes the
thin shortcut; otherwise placeholder `Symbol` slots are built and the code is
rewritten by `upvalueize_symbols`. -/
def Closure.compile (code : List Atom) (upvalueSymbols : List String) : Closure :=
  if upvalueSymbols.isEmpty then
    Closure.compileThin code
  else
    { upvalues := some (upvalueSymbols.map Atom.symbol),
      code := upvalueizeSymbols code upvalueSymbols }

/-- The argument-binding loop in the `Closure` arm of `NlispVm::evaluate`
(`src/vm.rs`): slot `i` is overwritten with `param[i]` when that parameter
exists; slots beyond the parameter list keep their previous value. -/
def bindSlots : List Atom → List Atom → List Atom
  | [], _ => []
  | _ :: us, a :: args => a :: bindSlots us args
  | us, [] => us

/-- Binding the call parameters into a closure's upvalue slots; a thin
closure is left unchanged. -/
def bindParams (c : Closure) (args : List Atom) : Closure :=
  match c.upvalues with
  | some us => { upvalues := some (bindSlots us args), code := c.code }
  | none => c

/-! ## Parser (`src/parser.rs`)

The Rust scanner stores the start index of the current token and slices the
input at flush time; the embedding accumulates the very same span of
characters (in reverse) inside the state, together with the running position
used in error payloads.  The emitted atoms are identical.  Rust character
classes are modelled on the ASCII range. -/

/-- `char::is_whitespace` restricted to ASCII. -/
def isWhitespaceC (c : Char) : Bool :=
  c = ' ' || c = '\t' || c = '\n' || c = '\r' || c = '\x0b' || c = '\x0c'

/-- `char::is_ascii_punctuation`. -/
def isAsciiPunctuationC (c : Char) : Bool :=
  (33 ≤ c.toNat && c.toNat ≤ 47) || (58 ≤ c.toNat && c.toNat ≤ 64) ||
  (91 ≤ c.toNat && c.toNat ≤ 96) || (123 ≤ c.toNat && c.toNat ≤ 126)

/-- `char::is_alphabetic` restricted to ASCII. -/
def isAlphabeticC (c : Char) : Bool :=
  ('a' ≤ c && c ≤ 'z') || ('A' ≤ c && c ≤ 'Z')

/-- `char::is_numeric` restricted to ASCII. -/
def isNumericC (c : Char) : Bool :=
  '0' ≤ c && c ≤ '9'

/-- `char::is_alphanumeric` restricted to ASCII. -/
def isAlphanumericC (c : Char) : Bool :=
  isAlphabeticC c || isNumericC c

/-- Value of a decimal digit string. -/
def digitsVal (l : List Char) : Nat :=
  l.foldl (fun a c => 10 * a + (c.toNat - 48)) 0

/-- Model of `f32::from_str` on the token strings produced by the number
scanner state (digits and dots only): it succeeds exactly on a nonempty
string with at most one `.` and at least one digit, and returns the exact
rational value (the `f32` rounding of the Rust code is immaterial to the
properties proved here). -/
def parseFloat? (s : List Char) : Option ℚ :=
  if (s.all fun c => isNumericC c || c = '.') &&
     s.countP (fun c => c == '.') ≤ 1 && s.any isNumericC then
    let intPart := s.takeWhile (· ≠ '.')
    let fracPart := (s.dropWhile (· ≠ '.')).drop 1
    some ((digitsVal intPart : ℚ) + (digitsVal fracPart : ℚ) / (10 : ℚ) ^ fracPart.length)
  else none

/-- `ReadingState` from `src/parser.rs`.  `acc` holds the span of characters
the Rust code would later slice out via the stored start index, accumulated
in reverse. -/
inductive ReadingState where
  | noneSt
  | symbolSt (acc : List Char)
  | numberSt (acc : List Char)
  | stringSt (acc : List Char)
  | listSt (acc : List Char) (depth : Nat) (inString : Bool)

/-- The character loop plus the end-of-input flush of `parse`
(`src/parser.rs`), parameterized by the recursive re-parse `recur` used when
a top-level list closes.  `pos` is the character position, used only in
error payloads. -/
def parseGo (recur : List Char → Except ParseError (List Atom)) :
    List Char → Nat → ReadingState → List Atom → Except ParseError (List Atom)
  | [], pos, st, atoms =>
    match st with
    | .symbolSt acc => .ok (atoms ++ [.symbol (String.mk acc.reverse)])
    | .numberSt acc =>
      match parseFloat? acc.reverse with
      | some v => .ok (atoms ++ [.number v])
      | none => .error (.numberError pos)
    | .stringSt _ => .error .incompleteString
    | .listSt _ _ _ => .error .incompleteList
    | .noneSt => .ok atoms
  | c :: rest, pos, .noneSt, atoms =>
    if isAlphabeticC c || (isAsciiPunctuationC c && c ≠ '(' && c ≠ ')') then
      parseGo recur rest (pos + 1) (.symbolSt [c]) atoms
    else if isNumericC c || c = '.' then
      parseGo recur rest (pos + 1) (.numberSt [c]) atoms
    else if c = '(' then
      parseGo recur rest (pos + 1) (.listSt [] 0 false) atoms
    else if c = '"' then
      parseGo recur rest (pos + 1) (.stringSt []) atoms
    else if isWhitespaceC c then
      parseGo recur rest (pos + 1) .noneSt atoms
    else
      .error (.invalidCharacter pos)
  | c :: rest, pos, .symbolSt acc, atoms =>
    if isAlphanumericC c || (isAsciiPunctuationC c && c ≠ '(' && c ≠ ')') then
      parseGo recur rest (pos + 1) (.symbolSt (c :: acc)) atoms
    else if isWhitespaceC c then
      parseGo recur rest (pos + 1) .noneSt (atoms ++ [.symbol (String.mk acc.reverse)])
    else
      .error (.invalidCharacter pos)
  | c :: rest, pos, .numberSt acc, atoms =>
    if isNumericC c || c = '.' then
      parseGo recur rest (pos + 1) (.numberSt (c :: acc)) atoms
    else if isWhitespaceC c then
      match parseFloat? acc.reverse with
      | some v => parseGo recur rest (pos + 1) .noneSt (atoms ++ [.number v])
      | none => .error (.numberError pos)
    else
      .error (.invalidCharacter pos)
  | c :: rest, pos, .stringSt acc, atoms =>
    if c = '"' then
      parseGo recur rest (pos + 1) .noneSt (atoms ++ [.string (String.mk acc.reverse)])
    else
      parseGo recur rest (pos + 1) (.stringSt (c :: acc)) atoms
  | c :: rest, pos, .listSt acc depth inString, atoms =>
    if inString = false ∧ depth = 0 ∧ c = ')' then
      match recur acc.reverse with
      | .ok l => parseGo recur rest (pos + 1) .noneSt (atoms ++ [.list l])
      | .error e => .error e
    else if inString = false ∧ c = '(' then
      parseGo recur rest (pos + 1) (.listSt (c :: acc) (depth + 1) inString) atoms
    else if inString = false ∧ c = ')' then
      parseGo recur rest (pos + 1) (.listSt (c :: acc) (depth - 1) inString) atoms
    else if c = '"' then
      parseGo recur rest (pos + 1) (.listSt (c :: acc) depth (!inString)) atoms
    else
      parseGo recur rest (pos + 1) (.listSt (c :: acc) depth inString) atoms

/-- Fuelled `parse`: one unit of fuel per nesting level of recursive
re-parsing.  Nesting depth is bounded by the input length, so the wrapper
`parse` below always supplies enough fuel; `fuel = 0` cannot be reached from
it. -/
def parseF : Nat → List Char → Except ParseError (List Atom)
  | 0, _ => .error .incompleteList
  | f + 1, input => parseGo (parseF f) input 0 .noneSt []

/-- `parse` from `src/parser.rs`. -/
def parse (input : List Char) : Except ParseError (List Atom) :=
  parseF (input.length + 1) input

/-- `parse` applied to a string. -/
def parseStr (s : String) : Except ParseError (List Atom) :=
  parse s.data

/-! Structural decidable equality for `Atom`, written by hand because the
automatic deriving handler does not support this nested inductive.  (This is
Lean-level equality of the embedded values; the coarser source-level
`PartialEq` is `Atom.beq` above.) -/

mutual

/-- Decidable structural equality on `Atom`. -/
def decEqAtom : (a b : Atom) → Decidable (a = b)
  | .symbol x, .symbol y =>
    match decEq x y with
    | isTrue h => isTrue (by rw [h])
    | isFalse h => isFalse (fun hh => h (by cases hh; rfl))
  | .symbol _, .number _ => isFalse (fun h => nomatch h)
  | .symbol _, .string _ => isFalse (fun h => nomatch h)
  | .symbol _, .list _ => isFalse (fun h => nomatch h)
  | .symbol _, .bool _ => isFalse (fun h => nomatch h)
  | .symbol _, .nil => isFalse (fun h => nomatch h)
  | .symbol _, .error _ => isFalse (fun h => nomatch h)
  | .symbol _, .upvalue _ => isFalse (fun h => nomatch h)
  | .symbol _, .closure _ _ => isFalse (fun h => nomatch h)
  | .symbol _, .nativeFunction _ => isFalse (fun h => nomatch h)
  | .number x, .number y =>
    match decEq x y with
    | isTrue h => isTrue (by rw [h])
    | isFalse h => isFalse (fun hh => h (by cases hh; rfl))
  | .number _, .symbol _ => isFalse (fun h => nomatch h)
  | .number _, .string _ => isFalse (fun h => nomatch h)
  | .number _, .list _ => isFalse (fun h => nomatch h)
  | .number _, .bool _ => isFalse (fun h => nomatch h)
  | .number _, .nil => isFalse (fun h => nomatch h)
  | .number _, .error _ => isFalse (fun h => nomatch h)
  | .number _, .upvalue _ => isFalse (fun h => nomatch h)
  | .number _, .closure _ _ => isFalse (fun h => nomatch h)
  | .number _, .nativeFunction _ => isFalse (fun h => nomatch h)
  | .string x, .string y =>
    match decEq x y with
    | isTrue h => isTrue (by rw [h])
    | isFalse h => isFalse (fun hh => h (by cases hh; rfl))
  | .string _, .symbol _ => isFalse (fun h => nomatch h)
  | .string _, .number _ => isFalse (fun h => nomatch h)
  | .string _, .list _ => isFalse (fun h => nomatch h)
  | .string _, .bool _ => isFalse (fun h => nomatch h)
  | .string _, .nil => isFalse (fun h => nomatch h)
  | .string _, .error _ => isFalse (fun h => nomatch h)
  | .string _, .upvalue _ => isFalse (fun h => nomatch h)
  | .string _, .closure _ _ => isFalse (fun h => nomatch h)
  | .string _, .nativeFunction _ => isFalse (fun h => nomatch h)
  | .list x, .list y =>
    match decEqAtomList x y with
    | isTrue h => isTrue (by rw [h])
    | isFalse h => isFalse (fun hh => h (by cases hh; rfl))
  | .list _, .symbol _ => isFalse (fun h => nomatch h)
  | .list _, .number _ => isFalse (fun h => nomatch h)
  | .list _, .string _ => isFalse (fun h => nomatch h)
  | .list _, .bool _ => isFalse (fun h => nomatch h)
  | .list _, .nil => isFalse (fun h => nomatch h)
  | .list _, .error _ => isFalse (fun h => nomatch h)
  | .list _, .upvalue _ => isFalse (fun h => nomatch h)
  | .list _, .closure _ _ => isFalse (fun h => nomatch h)
  | .list _, .nativeFunction _ => isFalse (fun h => nomatch h)
  | .bool x, .bool y =>
    match decEq x y with
    | isTrue h => isTrue (by rw [h])
    | isFalse h => isFalse (fun hh => h (by cases hh; rfl))
  | .bool _, .symbol _ => isFalse (fun h => nomatch h)
  | .bool _, .number _ => isFalse (fun h => nomatch h)
  | .bool _, .string _ => isFalse (fun h => nomatch h)
  | .bool _, .list _ => isFalse (fun h => nomatch h)
  | .bool _, .nil => isFalse (fun h => nomatch h)
  | .bool _, .error _ => isFalse (fun h => nomatch h)
  | .bool _, .upvalue _ => isFalse (fun h => nomatch h)
  | .bool _, .closure _ _ => isFalse (fun h => nomatch h)
  | .bool _, .nativeFunction _ => isFalse (fun h => nomatch h)
  | .nil, .nil => isTrue rfl
  | .nil, .symbol _ => isFalse (fun h => nomatch h)
  | .nil, .number _ => isFalse (fun h => nomatch h)
  | .nil, .string _ => isFalse (fun h => nomatch h)
  | .nil, .list _ => isFalse (fun h => nomatch h)
  | .nil, .bool _ => isFalse (fun h => nomatch h)
  | .nil, .error _ => isFalse (fun h => nomatch h)
  | .nil, .upvalue _ => isFalse (fun h => nomatch h)
  | .nil, .closure _ _ => isFalse (fun h => nomatch h)
  | .nil, .nativeFunction _ => isFalse (fun h => nomatch h)
  | .error x, .error y =>
    match decEq x y with
    | isTrue h => isTrue (by rw [h])
    | isFalse h => isFalse (fun hh => h (by cases hh; rfl))
  | .error _, .symbol _ => isFalse (fun h => nomatch h)
  | .error _, .number _ => isFalse (fun h => nomatch h)
  | .error _, .string _ => isFalse (fun h => nomatch h)
  | .error _, .list _ => isFalse (fun h => nomatch h)
  | .error _, .bool _ => isFalse (fun h => nomatch h)
  | .error _, .nil => isFalse (fun h => nomatch h)
  | .error _, .upvalue _ => isFalse (fun h => nomatch h)
  | .error _, .closure _ _ => isFalse (fun h => nomatch h)
  | .error _, .nativeFunction _ => isFalse (fun h => nomatch h)
  | .upvalue x, .upvalue y =>
    match decEq x y with
    | isTrue h => isTrue (by rw [h])
    | isFalse h => isFalse (fun hh => h (by cases hh; rfl))
  | .upvalue _, .symbol _ => isFalse (fun h => nomatch h)
  | .upvalue _, .number _ => isFalse (fun h => nomatch h)
  | .upvalue _, .string _ => isFalse (fun h => nomatch h)
  | .upvalue _, .list _ => isFalse (fun h => nomatch h)
  | .upvalue _, .bool _ => isFalse (fun h => nomatch h)
  | .upvalue _, .nil => isFalse (fun h => nomatch h)
  | .upvalue _, .error _ => isFalse (fun h => nomatch h)
  | .upvalue _, .closure _ _ => isFalse (fun h => nomatch h)
  | .upvalue _, .nativeFunction _ => isFalse (fun h => nomatch h)
  | .closure u1 c1, .closure u2 c2 =>
    match decEqAtomOptList u1 u2, decEqAtomList c1 c2 with
    | isTrue h1, isTrue h2 => isTrue (by rw [h1, h2])
    | isFalse h1, _ => isFalse (fun hh => h1 (by cases hh; rfl))
    | _, isFalse h2 => isFalse (fun hh => h2 (by cases hh; rfl))
  | .closure _ _, .symbol _ => isFalse (fun h => nomatch h)
  | .closure _ _, .number _ => isFalse (fun h => nomatch h)
  | .closure _ _, .string _ => isFalse (fun h => nomatch h)
  | .closure _ _, .list _ => isFalse (fun h => nomatch h)
  | .closure _ _, .bool _ => isFalse (fun h => nomatch h)
  | .closure _ _, .nil => isFalse (fun h => nomatch h)
  | .closure _ _, .error _ => isFalse (fun h => nomatch h)
  | .closure _ _, .upvalue _ => isFalse (fun h => nomatch h)
  | .closure _ _, .nativeFunction _ => isFalse (fun h => nomatch h)
  | .nativeFunction x, .nativeFunction y =>
    match decEq x y with
    | isTrue h => isTrue (by rw [h])
    | isFalse h => isFalse (fun hh => h (by cases hh; rfl))
  | .nativeFunction _, .symbol _ => isFalse (fun h => nomatch h)
  | .nativeFunction _, .number _ => isFalse (fun h => nomatch h)
  | .nativeFunction _, .string _ => isFalse (fun h => nomatch h)
  | .nativeFunction _, .list _ => isFalse (fun h => nomatch h)
  | .nativeFunction _, .bool _ => isFalse (fun h => nomatch h)
  | .nativeFunction _, .nil => isFalse (fun h => nomatch h)
  | .nativeFunction _, .error _ => isFalse (fun h => nomatch h)
  | .nativeFunction _, .upvalue _ => isFalse (fun h => nomatch h)
  | .nativeFunction _, .closure _ _ => isFalse (fun h => nomatch h)
termination_by structural a => a

/-- Decidable structural equality on `List Atom`. -/
def decEqAtomList : (l m : List Atom) → Decidable (l = m)
  | [], [] => isTrue rfl
  | [], _ :: _ => isFalse (fun h => nomatch h)
  | _ :: _, [] => isFalse (fun h => nomatch h)
  | a :: l, b :: m =>
    match decEqAtom a b, decEqAtomList l m with
    | isTrue h1, isTrue h2 => isTrue (by rw [h1, h2])
    | isFalse h1, _ => isFalse (fun hh => h1 (by cases hh; rfl))
    | _, isFalse h2 => isFalse (fun hh => h2 (by cases hh; rfl))
termination_by structural l => l

/-- Decidable structural equality on `Option (List Atom)`. -/
def decEqAtomOptList : (o p : Option (List Atom)) → Decidable (o = p)
  | none, none => isTrue rfl
  | none, some _ => isFalse (fun h => nomatch h)
  | some _, none => isFalse (fun h => nomatch h)
  | some l, some m =>
    match decEqAtomList l m with
    | isTrue h => isTrue (by rw [h])
    | isFalse h => isFalse (fun hh => h (by cases hh; rfl))
termination_by structural o => o

end

instance : DecidableEq Atom := decEqAtom

/-- Decidable equality for `Except` results (not provided by core). -/
instance {ε α : Type} [DecidableEq ε] [DecidableEq α] : DecidableEq (Except ε α) := fun a b =>
  match a, b with
  | .ok x, .ok y =>
    match decEq x y with
    | isTrue h => isTrue (by rw [h])
    | isFalse h => isFalse (fun hh => h (by cases hh; rfl))
  | .error x, .error y =>
    match decEq x y with
    | isTrue h => isTrue (by rw [h])
    | isFalse h => isFalse (fun hh => h (by cases hh; rfl))
  | .ok _, .error _ => isFalse (fun h => nomatch h)
  | .error _, .ok _ => isFalse (fun h => nomatch h)

/-! ## VM and primitives (`src/vm.rs`, `src/primitives.rs`) -/

/-- The global symbol table of `NlispVm` (a `BTreeMap` in Rust, modelled as
an association list; the interpreter only ever gets and inserts). -/
abbrev SymTable := List (String × Atom)

/-- `NlispVm::add_symbol`: `BTreeMap::insert`, replacing the value of an
existing key and adding a binding for a new one. -/
def addSymbol : SymTable → String → Atom → SymTable
  | [], name, value => [(name, value)]
  | (k, v) :: rest, name, value =>
    if k = name then (k, value) :: rest
    else (k, v) :: addSymbol rest name value

/-- `NlispVm::resolve`: `BTreeMap::get`. -/
def resolveSym : SymTable → String → Option Atom
  | [], _ => none
  | (k, v) :: rest, name => if k = name then some v else resolveSym rest name

/-- The table built by `NlispVm::new` (`src/vm.rs`), in insertion order. -/
def initialVm : SymTable :=
  [("pi", .number (mkRat 314159265 100000000)),
   ("true", .bool true),
   ("false", .bool false),
   ("print", .nativeFunction .printP),
   ("printd", .nativeFunction .printdP),
   ("if", .nativeFunction .ifP),
   ("lambda", .nativeFunction .lambdaP),
   ("quote", .nativeFunction .quoteP),
   ("type", .nativeFunction .typeP),
   ("global", .nativeFunction .globalP),
   ("resolve", .nativeFunction .resolveP),
   ("eval", .nativeFunction .evalP),
   ("+", .nativeFunction .sumP),
   ("*", .nativeFunction .productP),
   ("=", .nativeFunction .eqP),
   ("neg", .nativeFunction .negP)]

/-- The root context of `main.rs`: `Closure::compile_thin([])`. -/
def rootContext : Closure := Closure.compileThin []

mutual

/-- `resolve_upvalues` from `src/primitives.rs`: resolve each atom of the
list against the context, descending into sublists when `recursively`. -/
def resolveUpvalues (ctx : Closure) : List Atom → Bool → List Atom
  | [], _ => []
  | a :: rest, recursively =>
    resolveUpvaluesAtom ctx a recursively :: resolveUpvalues ctx rest recursively
termination_by structural l => l

/-- The per-atom step of `resolve_upvalues`. -/
def resolveUpvaluesAtom (ctx : Closure) : Atom → Bool → Atom
  | .list sublist, true => .list (resolveUpvalues ctx sublist true)
  | a, _ => ctx.resolve a
termination_by structural a => a

end

/-- `Atom::Number` payload or the `0f32` coercion used by `sum_function` and
`product_function`. -/
def atomToNum : Atom → ℚ
  | .number n => n
  | _ => 0

/-- `quote_function` from `src/primitives.rs`. -/
def quoteFunction (vm : SymTable) (_ctx : Closure) (param : List Atom) :
    Option (SymTable × Except VmError Atom) :=
  some (vm, .ok (.list param))

/-- The first-parameter check of `global_function` (`src/primitives.rs`):
a `Symbol` is taken as is, an `Upvalue` is resolved against the context and
must resolve to a `Symbol`; anything else yields `none`. -/
def globalSymbolOf (ctx : Closure) (param : List Atom) : Option String :=
  match param.get? 0 with
  | some (.symbol s) => some s
  | some (.upvalue r) =>
    match ctx.resolveRef r with
    | .symbol s => some s
    | _ => none
  | _ => none

/-- `printd_function` from `src/primitives.rs` (console output dropped). -/
def printdFunction (vm : SymTable) (_ctx : Closure) (_param : List Atom) :
    Option (SymTable × Except VmError Atom) :=
  some (vm, .ok .nil)

mutual

/-- `NlispVm::evaluate` from `src/vm.rs`.  The Rust code clones the list
before mutating its head closure's upvalue slots, so the mutation acts on a
per-call copy; value semantics renders exactly that.  An empty list is
`NonEvaluable`; a `Symbol` head is looked up in the global table and left as
is when unresolved; a `Closure` head gets its slots overwritten positionally
with the raw parameters and its code evaluated in the bound closure; a
`NativeFunction` head dispatches; any other head is `NotAFunction`. -/
def evaluate : Nat → SymTable → Closure → List Atom → Option (SymTable × Except VmError Atom)
  | 0, _, _, _ => none
  | _ + 1, vm, _, [] => some (vm, .error .nonEvaluable)
  | f + 1, vm, ctx, first :: param =>
    let first1 := match first with
      | .symbol s =>
        match resolveSym vm s with
        | some a => a
        | none => .symbol s
      | a => a
    match first1 with
    | .closure us code =>
      let c := bindParams ⟨us, code⟩ param
      evaluate f vm c c.code
    | .nativeFunction p => callPrim f p vm ctx param
    | _ => some (vm, .error .notAFunction)
termination_by structural fuel => fuel

/-- Dispatch through the native-function pointer stored in the atom. -/
def callPrim : Nat → PrimFn → SymTable → Closure → List Atom →
    Option (SymTable × Except VmError Atom)
  | 0, _, _, _, _ => none
  | f + 1, p, vm, ctx, param =>
    match p with
    | .printP => printFunction f vm ctx param
    | .printdP => printdFunction vm ctx param
    | .ifP => ifFunction f vm ctx param
    | .lambdaP => lambdaFunction f vm ctx param
    | .quoteP => quoteFunction vm ctx param
    | .typeP => typeFunction f vm ctx param
    | .globalP => globalFunction f vm ctx param
    | .resolveP => resolveFunction f vm ctx param
    | .evalP => evalFunction f vm ctx param
    | .sumP => sumFunction f vm ctx param
    | .productP => productFunction f vm ctx param
    | .eqP => eqFunction f vm ctx param
    | .negP => negFunction f vm ctx param
termination_by structural fuel => fuel

/-- `resolve_classic` from `src/primitives.rs`: resolve each parameter left
to right (upvalues via the context, symbols via the globals), evaluating
sublists when `evaluateEach` and reifying their errors as `Error` atoms. -/
def resolveClassic : Nat → SymTable → Closure → List Atom → Bool →
    Option (SymTable × List Atom)
  | 0, _, _, _, _ => none
  | _ + 1, vm, _, [], _ => some (vm, [])
  | f + 1, vm, ctx, a :: rest, evaluateEach =>
    let step : Option (SymTable × Atom) :=
      match a with
      | .list l =>
        if evaluateEach then
          match resolveClassic f vm ctx l true with
          | none => none
          | some (vm1, listResolved) =>
            match evaluate f vm1 ctx listResolved with
            | none => none
            | some (vm2, .ok r) => some (vm2, r)
            | some (vm2, .error e) => some (vm2, .error e)
        else
          some (vm, .list l)
      | .upvalue r => some (vm, ctx.resolveRef r)
      | .symbol s =>
        match resolveSym vm s with
        | some v => some (vm, v)
        | none => some (vm, .symbol s)
      | other => some (vm, other)
    match step with
    | none => none
    | some (vm1, a1) =>
      match resolveClassic f vm1 ctx rest evaluateEach with
      | none => none
      | some (vm2, rest1) => some (vm2, a1 :: rest1)
termination_by structural fuel => fuel

/-- `evaluate_atom` from `src/primitives.rs`: evaluate a list (after a
non-recursive `resolve_classic` pass), resolve a symbol or upvalue, pass
anything else through. -/
def evaluateAtom : Nat → SymTable → Closure → Atom → Option (SymTable × Except VmError Atom)
  | 0, _, _, _ => none
  | f + 1, vm, ctx, .list l =>
    match resolveClassic f vm ctx l false with
    | none => none
    | some (vm1, listResolved) => evaluate f vm1 ctx listResolved
  | _ + 1, vm, _, .symbol s =>
    some (vm, .ok (match resolveSym vm s with
      | some v => v
      | none => .symbol s))
  | _ + 1, vm, ctx, .upvalue r => some (vm, .ok (ctx.resolveRef r))
  | _ + 1, vm, _, a => some (vm, .ok a)
termination_by structural fuel => fuel

/-- `if_function` from `src/primitives.rs`. -/
def ifFunction : Nat → SymTable → Closure → List Atom → Option (SymTable × Except VmError Atom)
  | 0, _, _, _ => none
  | f + 1, vm, ctx, param =>
    match param.get? 0 with
    | none => some (vm, .error .invalidUsage)
    | some condAtom =>
      match evaluateAtom f vm ctx condAtom with
      | none => none
      | some (vm1, .error e) => some (vm1, .error e)
      | some (vm1, .ok condVal) =>
        let condResult := match condVal with
          | .bool false => false
          | .nil => false
          | _ => true
        match (if condResult then param.get? 1 else param.get? 2) with
        | some branch => evaluateAtom f vm1 ctx branch
        | none => some (vm1, .ok .nil)
termination_by structural fuel => fuel

/-- `lambda_function` from `src/primitives.rs`. -/
def lambdaFunction : Nat → SymTable → Closure → List Atom →
    Option (SymTable × Except VmError Atom)
  | 0, _, _, _ => none
  | f + 1, vm, ctx, param =>
    match resolveClassic f vm ctx param false with
    | none => none
    | some (vm1, p) =>
      match p.get? 0 with
      | some (.list upvals) =>
        match p.get? 1 with
        | some (.list source) =>
          if upvals.any (fun a => match a with | .symbol _ => false | _ => true) then
            some (vm1, .error .invalidUsage)
          else
            let upvalueSymbols := upvals.map (fun a => match a with
              | .symbol s => s
              | _ => "(nil)")
            some (vm1, .ok (Closure.compile (resolveUpvalues ctx source true)
              upvalueSymbols).toAtom)
        | _ => some (vm1, .error .invalidUsage)
      | _ => some (vm1, .error .invalidUsage)
termination_by structural fuel => fuel

/-- `eval_function` from `src/primitives.rs`. -/
def evalFunction : Nat → SymTable → Closure → List Atom →
    Option (SymTable × Except VmError Atom)
  | 0, _, _, _ => none
  | f + 1, vm, ctx, param =>
    if param.any (fun a => match a with | .list _ => false | _ => true) then
      some (vm, .error .invalidUsage)
    else
      match evalEach f vm ctx param with
      | none => none
      | some (vm1, results) => some (vm1, .ok (.list results))
termination_by structural fuel => fuel

/-- The element loop of `eval_function`: evaluate each list, reifying a
`VmError` as an `Error` atom in place (the non-list arm mirrors the
unreachable `_ => Err(InvalidUsage)` arm of the Rust iterator). -/
def evalEach : Nat → SymTable → Closure → List Atom → Option (SymTable × List Atom)
  | 0, _, _, _ => none
  | _ + 1, vm, _, [] => some (vm, [])
  | f + 1, vm, ctx, a :: rest =>
    let step : Option (SymTable × Atom) :=
      match a with
      | .list l =>
        match evaluate f vm ctx l with
        | none => none
        | some (vm1, .ok r) => some (vm1, r)
        | some (vm1, .error e) => some (vm1, .error e)
      | _ => some (vm, .error .invalidUsage)
    match step with
    | none => none
    | some (vm1, r) =>
      match evalEach f vm1 ctx rest with
      | none => none
      | some (vm2, rs) => some (vm2, r :: rs)
termination_by structural fuel => fuel

/-- `type_function` from `src/primitives.rs`. -/
def typeFunction : Nat → SymTable → Closure → List Atom →
    Option (SymTable × Except VmError Atom)
  | 0, _, _, _ => none
  | f + 1, vm, ctx, param =>
    match resolveClassic f vm ctx param false with
    | none => none
    | some (vm1, rs) => some (vm1, .ok (.list (rs.map fun a => .string a.getTypeStr)))
termination_by structural fuel => fuel

/-- `global_function` from `src/primitives.rs`. -/
def globalFunction : Nat → SymTable → Closure → List Atom →
    Option (SymTable × Except VmError Atom)
  | 0, _, _, _ => none
  | f + 1, vm, ctx, param =>
    match globalSymbolOf ctx param with
    | none => some (vm, .error .notASymbol)
    | some name =>
      match param.get? 1 with
      | none => some (vm, .error .invalidUsage)
      | some a =>
        match evaluateAtom f vm ctx a with
        | none => none
        | some (vm1, .ok value) => some (addSymbol vm1 name value, .ok .nil)
        | some (vm1, .error e) => some (vm1, .error e)
termination_by structural fuel => fuel

/-- `resolve_function` from `src/primitives.rs`. -/
def resolveFunction : Nat → SymTable → Closure → List Atom →
    Option (SymTable × Except VmError Atom)
  | 0, _, _, _ => none
  | f + 1, vm, ctx, param =>
    match resolveClassic f vm ctx param false with
    | none => none
    | some (vm1, rs) => some (vm1, .ok (.list rs))
termination_by structural fuel => fuel

/-- `neg_function` from `src/primitives.rs`. -/
def negFunction : Nat → SymTable → Closure → List Atom →
    Option (SymTable × Except VmError Atom)
  | 0, _, _, _ => none
  | f + 1, vm, ctx, param =>
    match evaluateAtom f vm ctx (match param.get? 0 with
      | some a => a
      | none => .nil) with
    | none => none
    | some (vm1, .ok (.number n)) => some (vm1, .ok (.number (-n)))
    | some (vm1, .ok a) => some (vm1, .ok a)
    | some (vm1, .error e) => some (vm1, .error e)
termination_by structural fuel => fuel

/-- `sum_function` from `src/primitives.rs`. -/
def sumFunction : Nat → SymTable → Closure → List Atom →
    Option (SymTable × Except VmError Atom)
  | 0, _, _, _ => none
  | f + 1, vm, ctx, param =>
    match resolveClassic f vm ctx param true with
    | none => none
    | some (vm1, rs) =>
      some (vm1, .ok (.number ((rs.map atomToNum).foldl (· + ·) 0)))
termination_by structural fuel => fuel

/-- `product_function` from `src/primitives.rs` (note its extra per-element
re-evaluation of lists that survive `resolve_classic`). -/
def productFunction : Nat → SymTable → Closure → List Atom →
    Option (SymTable × Except VmError Atom)
  | 0, _, _, _ => none
  | f + 1, vm, ctx, param =>
    match resolveClassic f vm ctx param true with
    | none => none
    | some (vm1, rs) =>
      match productEach f vm1 ctx rs with
      | none => none
      | some (vm2, rs2) =>
        some (vm2, .ok (.number ((rs2.map atomToNum).foldl (· * ·) 0)))
termination_by structural fuel => fuel

/-- The first `map` of `product_function`: re-evaluate `List` atoms,
collapsing errors to `Nil` (`unwrap_or(Atom::Nil)`). -/
def productEach : Nat → SymTable → Closure → List Atom → Option (SymTable × List Atom)
  | 0, _, _, _ => none
  | _ + 1, vm, _, [] => some (vm, [])
  | f + 1, vm, ctx, a :: rest =>
    let step : Option (SymTable × Atom) :=
      match a with
      | .list l =>
        match evaluate f vm ctx l with
        | none => none
        | some (vm1, .ok r) => some (vm1, r)
        | some (vm1, .error _) => some (vm1, .nil)
      | _ => some (vm, a)
    match step with
    | none => none
    | some (vm1, r) =>
      match productEach f vm1 ctx rest with
      | none => none
      | some (vm2, rs) => some (vm2, r :: rs)
termination_by structural fuel => fuel

/-- `eq_function` from `src/primitives.rs`: all elements must equal the
first under the source `PartialEq` (`Atom.beq`). -/
def eqFunction : Nat → SymTable → Closure → List Atom →
    Option (SymTable × Except VmError Atom)
  | 0, _, _, _ => none
  | f + 1, vm, ctx, param =>
    match resolveClassic f vm ctx param true with
    | none => none
    | some (vm1, rs) =>
      match rs with
      | [] => some (vm1, .ok (.bool true))
      | first :: rest => some (vm1, .ok (.bool (rest.all fun e => Atom.beq first e)))
termination_by structural fuel => fuel

/-- `print_function` from `src/primitives.rs` (console output dropped; the
resolution pass and its table effects are kept). -/
def printFunction : Nat → SymTable → Closure → List Atom →
    Option (SymTable × Except VmError Atom)
  | 0, _, _, _ => none
  | f + 1, vm, ctx, param =>
    match resolveClassic f vm ctx param true with
    | none => none
    | some (vm1, _) => some (vm1, .ok .nil)
termination_by structural fuel => fuel

end

/-! ## Spec-side characterizations and supporting lemmas -/

mutual

/-- Spec-side description of the upvalue rewriting pass (§4.2 of the spec,
for comparison with `upvalueizeSymbols`): replace every `Symbol` atom whose
text matches a declared name, at any nesting depth, by an `UpvalueRef` to
the first matching index, leaving all other atoms unchanged. -/
def specRewrite (syms : List String) : List Atom → List Atom
  | [] => []
  | a :: rest => specRewriteAtom syms a :: specRewrite syms rest
termination_by structural l => l

/-- Single-atom case of `specRewrite`. -/
def specRewriteAtom (syms : List String) : Atom → Atom
  | .symbol s =>
    match syms.findIdx? (· = s) with
    | some i => .upvalue ⟨i, s⟩
    | none => .symbol s
  | .list l => .list (specRewrite syms l)
  | a => a
termination_by structural a => a

end

theorem enum_find?_eq_findIdx? (s : String) :
    ∀ (syms : List String) (k : Nat),
      ((syms.enumFrom k).find? fun p => p.2 == s)
        = (syms.findIdx? (· = s)).map fun i => (k + i, s) := by
  intro syms
  induction syms with
  | nil => intro k; rfl
  | cons a rest ih =>
    intro k
    by_cases h : a = s
    · subst h
      simp [List.enumFrom, List.find?, List.findIdx?_cons]
    · have hb : (a == s) = false := by simp [h]
      simp [List.enumFrom, List.find?, hb, List.findIdx?_cons, h, ih (k + 1)]
      cases hfi : rest.findIdx? (· = s) with
      | none => simp
      | some i => simp [Nat.add_assoc, Nat.add_comm 1 i]

mutual

theorem upvalueizeSymbols_eq_spec : ∀ (l : List Atom) (syms : List String),
    upvalueizeSymbols l syms = specRewrite syms l
  | [], _ => rfl
  | a :: rest, syms => by
    rw [upvalueizeSymbols, specRewrite, upvalueizeAtom_eq_spec a syms,
      upvalueizeSymbols_eq_spec rest syms]
termination_by structural l => l

theorem upvalueizeAtom_eq_spec : ∀ (a : Atom) (syms : List String),
    upvalueizeAtom a syms = specRewriteAtom syms a
  | .symbol s, syms => by
    rw [upvalueizeAtom, specRewriteAtom]
    rw [show syms.enum = syms.enumFrom 0 from rfl, enum_find?_eq_findIdx? s syms 0]
    cases h : syms.findIdx? (· = s) with
    | none => rfl
    | some i => simp
  | .list l, syms => by
    rw [upvalueizeAtom, specRewriteAtom, upvalueizeSymbols_eq_spec l syms]
  | .number _, _ => rfl
  | .string _, _ => rfl
  | .bool _, _ => rfl
  | .nil, _ => rfl
  | .error _, _ => rfl
  | .upvalue _, _ => rfl
  | .closure _ _, _ => rfl
  | .nativeFunction _, _ => rfl
termination_by structural a => a

end

/-! ## Claim theorems -/

/-- C4: `compile` with an empty name list returns a thin closure with the
code unchanged; with a non-empty name list it builds placeholder `Symbol`
slots in declared order and rewrites every matching `Symbol` at any nesting
depth to an `UpvalueRef` of the first matching index, all other atoms
unchanged; `compile [Symbol "a"] ["a","b"]` yields code `[UpvalueRef 0 "a"]`. -/
theorem c4_compile_upvalueize :
    (∀ (code : List Atom), Closure.compile code [] = ⟨none, code⟩)
    ∧ (∀ (code : List Atom) (names : List String), names ≠ [] →
        (Closure.compile code names).upvalues = some (names.map Atom.symbol)
        ∧ (Closure.compile code names).code = specRewrite names code)
    ∧ (Closure.compile [.symbol "a"] ["a", "b"]).code = [.upvalue ⟨0, "a"⟩] := by
  refine ⟨fun code => rfl, fun code names h => ?_, by decide⟩
  have hne : names.isEmpty = false := by
    cases names with
    | nil => exact absurd rfl h
    | cons a l => rfl
  constructor <;> simp [Closure.compile, hne, upvalueizeSymbols_eq_spec]

/-- Witness for C4 at `code = [Symbol "a"]`, `names = ["a","b"]`. -/
theorem c4_compile_upvalueize_witness :
    (Closure.compile [.symbol "a"] ["a", "b"]).upvalues
      = some [.symbol "a", .symbol "b"]
    ∧ (Closure.compile [.symbol "a"] ["a", "b"]).code
      = specRewrite ["a", "b"] [.symbol "a"] :=
  c4_compile_upvalueize.2.1 [.symbol "a"] ["a", "b"] (by decide)

/-- C7: `resolve_ref` is total and never errors: with no upvalue array or an
out-of-range index it returns `Nil`, otherwise the slot at the index;
`resolve` applies the same rule to `Upvalue` atoms and passes every other
atom through unchanged. -/
theorem c7_resolveRef_total :
    (∀ (c : Closure) (r : UpvalueRef), c.upvalues = none → c.resolveRef r = .nil)
    ∧ (∀ (c : Closure) (us : List Atom) (r : UpvalueRef), c.upvalues = some us →
        us.length ≤ r.idx → c.resolveRef r = .nil)
    ∧ (∀ (c : Closure) (us : List Atom) (r : UpvalueRef) (h : r.idx < us.length),
        c.upvalues = some us → c.resolveRef r = us.get ⟨r.idx, h⟩)
    ∧ (∀ (c : Closure) (r : UpvalueRef), c.resolve (.upvalue r) = c.resolveRef r)
    ∧ (∀ (c : Closure) (a : Atom), (∀ r, a ≠ .upvalue r) → c.resolve a = a) := by
  refine ⟨fun c r h => ?_, fun c us r h hlen => ?_, fun c us r h hup => ?_,
    fun c r => rfl, fun c a h => ?_⟩
  · simp [Closure.resolveRef, h]
  · simp only [Closure.resolveRef, h]
    rw [List.get?_eq_none.mpr hlen]
  · simp only [Closure.resolveRef, hup]
    rw [List.get?_eq_get h]
  · cases a <;> first
      | rfl
      | exact absurd rfl (h _)

/-- Witness for C7: a thin closure, an out-of-range index, an in-range
index, and the pass-through case, each at concrete values. -/
theorem c7_resolveRef_total_witness :
    Closure.resolveRef ⟨none, []⟩ ⟨0, "x"⟩ = .nil
    ∧ Closure.resolveRef ⟨some [.number 7], []⟩ ⟨3, "x"⟩ = .nil
    ∧ Closure.resolveRef ⟨some [.number 7], []⟩ ⟨0, "x"⟩ = .number 7
    ∧ Closure.resolve ⟨none, []⟩ (.string "s") = .string "s" :=
  ⟨c7_resolveRef_total.1 ⟨none, []⟩ ⟨0, "x"⟩ rfl,
   c7_resolveRef_total.2.1 ⟨some [.number 7], []⟩ [.number 7] ⟨3, "x"⟩ rfl (by decide),
   c7_resolveRef_total.2.2.1 ⟨some [.number 7], []⟩ [.number 7] ⟨0, "x"⟩ (by decide) rfl,
   c7_resolveRef_total.2.2.2.2 ⟨none, []⟩ (.string "s") (fun r h => nomatch h)⟩

/-- C9: the source `PartialEq` on atoms is structural per variant (symbols
and strings by text, numbers by value, lists element-wise, closures by slot
array and code) except that any two `NativeFunction` atoms are equal, and
consequently `(= print lambda)` in a fresh VM yields `Bool true`. -/
theorem c9_partialEq_contract :
    (∀ p q : PrimFn, Atom.beq (.nativeFunction p) (.nativeFunction q) = true)
    ∧ (∀ s t : String, (Atom.beq (.symbol s) (.symbol t) = true) ↔ s = t)
    ∧ (∀ x y : ℚ, (Atom.beq (.number x) (.number y) = true) ↔ x = y)
    ∧ (∀ s t : String, (Atom.beq (.string s) (.string t) = true) ↔ s = t)
    ∧ (∀ l m : List Atom, Atom.beq (.list l) (.list m) = Atom.beqList l m)
    ∧ (∀ (a b : Atom) (l m : List Atom),
        Atom.beqList (a :: l) (b :: m) = (Atom.beq a b && Atom.beqList l m))
    ∧ (∀ (u1 u2 : Option (List Atom)) (c1 c2 : List Atom),
        Atom.beq (.closure u1 c1) (.closure u2 c2)
          = (Atom.beqOptList u1 u2 && Atom.beqList c1 c2))
    ∧ evaluate 20 initialVm rootContext [.symbol "=", .symbol "print", .symbol "lambda"]
        = some (initialVm, .ok (.bool true)) := by
  refine ⟨fun p q => rfl, fun s t => ?_, fun x y => ?_, fun s t => ?_,
    fun l m => rfl, fun a b l m => rfl, fun u1 u2 c1 c2 => rfl, by decide⟩
  · simp [Atom.beq]
  · simp [Atom.beq]
  · simp [Atom.beq]

/-- Witness for C9's componentwise equivalences at concrete values. -/
theorem c9_partialEq_contract_witness :
    Atom.beq (.symbol "a") (.symbol "a") = true
    ∧ Atom.beq (.number 2) (.number 2) = true
    ∧ Atom.beq (.string "x") (.string "x") = true :=
  ⟨(c9_partialEq_contract.2.1 "a" "a").mpr rfl,
   (c9_partialEq_contract.2.2.1 2 2).mpr rfl,
   (c9_partialEq_contract.2.2.2.1 "x" "x").mpr rfl⟩

/-- C2: `(if false 1 2)` in a fresh VM yields `Number 2`, and `(if nil 1)`
(with `nil` denoting the Nil atom — the VM binds no symbol named `nil`)
yields `Nil`; in general the condition counts as false exactly when it
evaluates to `Bool false` or `Nil`, every other result selects the then
branch, and a missing selected branch yields `Nil`. -/
theorem c2_if_semantics :
    (evaluate 20 initialVm rootContext
        [.symbol "if", .symbol "false", .number 1, .number 2]
      = some (initialVm, .ok (.number 2)))
    ∧ (evaluate 20 initialVm rootContext [.symbol "if", .nil, .number 1]
      = some (initialVm, .ok .nil))
    ∧ resolveSym initialVm "nil" = none
    ∧ (∀ (f : Nat) (vm : SymTable) (ctx : Closure) (cond : Atom) (rest : List Atom)
        (vm1 : SymTable) (a : Atom), evaluateAtom f vm ctx cond = some (vm1, .ok a) →
        ((a = .bool false ∨ a = .nil →
          ifFunction (f + 1) vm ctx (cond :: rest)
            = match rest.get? 1 with
              | some b => evaluateAtom f vm1 ctx b
              | none => some (vm1, .ok .nil))
        ∧ (a ≠ .bool false → a ≠ .nil →
          ifFunction (f + 1) vm ctx (cond :: rest)
            = match rest.get? 0 with
              | some b => evaluateAtom f vm1 ctx b
              | none => some (vm1, .ok .nil)))) := by
  refine ⟨by decide, by decide, by decide,
    fun f vm ctx cond rest vm1 a h => ⟨fun hfalse => ?_, fun h1 h2 => ?_⟩⟩
  · obtain rfl | rfl := hfalse <;> simp [ifFunction, List.get?, h]
  · have hc : (match a with | Atom.bool false => false | Atom.nil => false | _ => true)
        = true := by
      cases a <;> first
        | rfl
        | exact absurd rfl h2
        | (rename_i b; cases b
           · exact absurd rfl h1
           · rfl)
    simp [ifFunction, List.get?, h, hc]

/-- Witness for C2's general falsy rule, at the condition `Symbol "false"`
of the fresh VM: the else branch (`Number 2`) is selected. -/
theorem c2_if_semantics_witness :
    ifFunction 20 initialVm rootContext [.symbol "false", .number 1, .number 2]
      = evaluateAtom 19 initialVm rootContext (.number 2) :=
  (c2_if_semantics.2.2.2 19 initialVm rootContext (.symbol "false")
    [.number 1, .number 2] initialVm (.bool false) (by decide)).1 (Or.inl rfl)

/-- A fold of `(· * ·)` seeded with `0` is identically `0` over `ℚ` (the
embedding of `product_function`'s `fold(0f32, |a, b| a * b)`; there is no
NaN in the model). -/
theorem foldl_mul_zero : ∀ l : List ℚ, l.foldl (· * ·) 0 = 0
  | [] => rfl
  | a :: l => by
    show List.foldl (· * ·) (0 * a) l = 0
    rw [zero_mul]
    exact foldl_mul_zero l

unseal Rat.add Rat.mul Rat.inv in
/-- C5: `+` resolves and evaluates its parameters (sublists included), maps
every non-`Number` result to `0` and folds with addition seeded `0`; `*`
does the same (with its extra re-evaluation pass) folding with
multiplication seeded `0`, so its result is always `Number 0`; hence `(+)`
is `Number 0`, `(*)` is `Number 0` and `(+ 1 "x")` is `Number 1`. -/
theorem c5_sum_product :
    (∀ (f : Nat) (vm : SymTable) (ctx : Closure) (param : List Atom) (vm1 : SymTable)
        (rs : List Atom), resolveClassic f vm ctx param true = some (vm1, rs) →
        sumFunction (f + 1) vm ctx param
          = some (vm1, .ok (.number ((rs.map atomToNum).foldl (· + ·) 0))))
    ∧ (∀ (f : Nat) (vm : SymTable) (ctx : Closure) (param : List Atom) (vm1 : SymTable)
        (rs : List Atom) (vm2 : SymTable) (rs2 : List Atom),
        resolveClassic f vm ctx param true = some (vm1, rs) →
        productEach f vm1 ctx rs = some (vm2, rs2) →
        productFunction (f + 1) vm ctx param
          = some (vm2, .ok (.number ((rs2.map atomToNum).foldl (· * ·) 0)))
        ∧ (rs2.map atomToNum).foldl (· * ·) 0 = 0)
    ∧ evaluate 20 initialVm rootContext [.symbol "+"] = some (initialVm, .ok (.number 0))
    ∧ evaluate 20 initialVm rootContext [.symbol "*"] = some (initialVm, .ok (.number 0))
    ∧ evaluate 20 initialVm rootContext [.symbol "+", .number 1, .string "x"]
        = some (initialVm, .ok (.number 1)) := by
  refine ⟨fun f vm ctx param vm1 rs h => ?_,
    fun f vm ctx param vm1 rs vm2 rs2 h h2 => ⟨?_, foldl_mul_zero _⟩,
    by decide, by decide, by decide⟩
  · simp only [sumFunction, h]
  · simp only [productFunction, h, h2]

/-- Witness for C5's general parts at `(+ 1 "x")` and `(*)`. -/
theorem c5_sum_product_witness :
    sumFunction 20 initialVm rootContext [.number 1, .string "x"]
      = some (initialVm,
          .ok (.number (([Atom.number 1, Atom.string "x"].map atomToNum).foldl (· + ·) 0)))
    ∧ productFunction 20 initialVm rootContext []
      = some (initialVm, .ok (.number (([].map atomToNum).foldl (· * ·) 0))) :=
  ⟨c5_sum_product.1 19 initialVm rootContext [.number 1, .string "x"] initialVm
      [.number 1, .string "x"] (by decide),
   (c5_sum_product.2.1 19 initialVm rootContext [] initialVm [] initialVm []
      (by decide) (by decide)).1⟩

/-- C6: `eval` returns `InvalidUsage` when any parameter is not a `List`;
otherwise it evaluates each parameter as a call, reifying a per-element
`VmError` as an `Error` atom at that position instead of aborting the
overall call. -/
theorem c6_eval_semantics :
    (∀ (f : Nat) (vm : SymTable) (ctx : Closure) (param : List Atom),
        (∃ a ∈ param, ∀ l, a ≠ .list l) →
        evalFunction (f + 1) vm ctx param = some (vm, .error .invalidUsage))
    ∧ (∀ (f : Nat) (vm : SymTable) (ctx : Closure) (param : List Atom),
        (∀ a ∈ param, ∃ l, a = .list l) →
        evalFunction (f + 1) vm ctx param
          = match evalEach f vm ctx param with
            | none => none
            | some (vm1, rs) => some (vm1, .ok (.list rs)))
    ∧ (∀ (f : Nat) (vm : SymTable) (ctx : Closure) (l rest : List Atom)
        (vm1 : SymTable) (e : VmError), evaluate f vm ctx l = some (vm1, .error e) →
        evalEach (f + 1) vm ctx (.list l :: rest)
          = match evalEach f vm1 ctx rest with
            | none => none
            | some (vm2, rs) => some (vm2, .error e :: rs))
    ∧ (∀ (f : Nat) (vm : SymTable) (ctx : Closure) (l rest : List Atom)
        (vm1 : SymTable) (r : Atom), evaluate f vm ctx l = some (vm1, .ok r) →
        evalEach (f + 1) vm ctx (.list l :: rest)
          = match evalEach f vm1 ctx rest with
            | none => none
            | some (vm2, rs) => some (vm2, r :: rs)) := by
  refine ⟨fun f vm ctx param h => ?_, fun f vm ctx param h => ?_,
    fun f vm ctx l rest vm1 e h => ?_, fun f vm ctx l rest vm1 r h => ?_⟩
  · obtain ⟨a, ha, hnl⟩ := h
    have hany : (param.any fun a => match a with | .list _ => false | _ => true) = true :=
      List.any_eq_true.mpr ⟨a, ha, by
        cases a <;> first
          | rfl
          | exact absurd rfl (hnl _)⟩
    simp [evalFunction, hany]
  · have hany : (param.any fun a => match a with | .list _ => false | _ => true) = false :=
      List.any_eq_false.mpr (fun a ha => by
        obtain ⟨l, rfl⟩ := h a ha
        simp)
    simp [evalFunction, hany]
  · simp only [evalEach, h]
  · simp only [evalEach, h]

/-- Witness for C6: `(eval 1)` is `InvalidUsage`; an element `(1)` that
fails with `NotAFunction` is reified in place. -/
theorem c6_eval_semantics_witness :
    evalFunction 20 initialVm rootContext [.number 1] = some (initialVm, .error .invalidUsage)
    ∧ evalEach 20 initialVm rootContext [.list [.number 1]]
        = some (initialVm, [.error .notAFunction]) :=
  ⟨c6_eval_semantics.1 19 initialVm rootContext [.number 1]
    ⟨.number 1, by simp, fun l h => nomatch h⟩,
   c6_eval_semantics.2.2.1 19 initialVm rootContext [.number 1] [] initialVm
    .notAFunction (by decide)⟩

unseal Rat.add Rat.mul Rat.inv in
/-- C10 counterexample: `(global z (if (global y 1) 2 ()))` returns a
`NonEvaluable` error (the empty else branch), yet the global table has
gained the binding `y ↦ Number 1` made while evaluating the value
expression — so an erroring `global` does not leave the table unchanged. -/
theorem c10_global_counterexample :
    evaluate 20 initialVm rootContext
        [.symbol "global", .symbol "z",
         .list [.symbol "if", .list [.symbol "global", .symbol "y", .number 1],
                .number 2, .list []]]
      = some (initialVm ++ [("y", .number 1)], .error .nonEvaluable)
    ∧ initialVm ++ [("y", .number 1)] ≠ initialVm := ⟨by decide, by decide⟩

/-- C10 amended: `global` leaves the table unchanged when it fails its own
checks (`NotASymbol` for a first parameter that is neither a `Symbol` nor an
`Upvalue` resolving to one, `InvalidUsage` for a missing second parameter),
and binds only on success, returning `Nil`; when evaluating the value
expression fails, `global` itself adds no binding and propagates the error,
but table mutations performed inside that evaluation persist. -/
theorem c10_global_amended :
    (∀ (f : Nat) (vm : SymTable) (ctx : Closure) (param : List Atom),
        globalSymbolOf ctx param = none →
        globalFunction (f + 1) vm ctx param = some (vm, .error .notASymbol))
    ∧ (∀ (f : Nat) (vm : SymTable) (ctx : Closure) (param : List Atom) (name : String),
        globalSymbolOf ctx param = some name → param.get? 1 = none →
        globalFunction (f + 1) vm ctx param = some (vm, .error .invalidUsage))
    ∧ (∀ (f : Nat) (vm : SymTable) (ctx : Closure) (param : List Atom) (name : String)
        (a : Atom) (vmE : SymTable) (e : VmError),
        globalSymbolOf ctx param = some name → param.get? 1 = some a →
        evaluateAtom f vm ctx a = some (vmE, .error e) →
        globalFunction (f + 1) vm ctx param = some (vmE, .error e))
    ∧ (∀ (f : Nat) (vm : SymTable) (ctx : Closure) (param : List Atom) (name : String)
        (a : Atom) (vmE : SymTable) (v : Atom),
        globalSymbolOf ctx param = some name → param.get? 1 = some a →
        evaluateAtom f vm ctx a = some (vmE, .ok v) →
        globalFunction (f + 1) vm ctx param = some (addSymbol vmE name v, .ok .nil)) := by
  refine ⟨fun f vm ctx param h => ?_, fun f vm ctx param name h h1 => ?_,
    fun f vm ctx param name a vmE e h h1 h2 => ?_,
    fun f vm ctx param name a vmE v h h1 h2 => ?_⟩
  · simp only [globalFunction, h]
  · simp only [globalFunction, h, h1]
  · simp only [globalFunction, h, h1, h2]
  · simp only [globalFunction, h, h1, h2]

/-- Witness for C10's amended clauses: `(global x 5)` binds and returns
`Nil`; `(global x)` is `InvalidUsage` with the table unchanged. -/
theorem c10_global_amended_witness :
    globalFunction 20 initialVm rootContext [.symbol "x", .number 5]
      = some (addSymbol initialVm "x" (.number 5), .ok .nil)
    ∧ globalFunction 20 initialVm rootContext [.symbol "x"]
      = some (initialVm, .error .invalidUsage) :=
  ⟨c10_global_amended.2.2.2 19 initialVm rootContext [.symbol "x", .number 5] "x"
    (.number 5) initialVm (.number 5) rfl rfl (by decide),
   c10_global_amended.2.1 19 initialVm rootContext [.symbol "x"] "x" rfl rfl⟩

/-- A fresh table additionally storing the closure compiled from
`(+ x)` with upvalue list `(x)` under the name `f`. -/
def vmWithF : SymTable :=
  addSymbol initialVm "f" (Closure.compile [.symbol "+", .symbol "x"] ["x"]).toAtom

unseal Rat.add Rat.mul Rat.inv in
/-- C3: invoking a closure stored in the global table binds arguments on a
per-call copy.  The body runs in `bindParams` of the *stored* closure value
and the raw arguments — a pure function of the two, so no bound-argument
state can leak between runs; with the same global state, a second identical
call returns the identical result.  Concretely, calling `(f 5)` for the
stored closure `f = (lambda (x) (+ x))` yields `Number 5`, leaves the table
(and hence the stored closure) unchanged, and the stored closure still holds
its placeholder `Symbol "x"` slot afterwards. -/
theorem c3_closure_call :
    (∀ (f : Nat) (vm : SymTable) (ctx : Closure) (s : String) (args : List Atom)
        (us : Option (List Atom)) (code : List Atom),
        resolveSym vm s = some (.closure us code) →
        evaluate (f + 1) vm ctx (.symbol s :: args)
          = evaluate f vm (bindParams ⟨us, code⟩ args) (bindParams ⟨us, code⟩ args).code)
    ∧ (∀ (f : Nat) (vm vm1 : SymTable) (ctx : Closure) (s : String) (args : List Atom)
        (us : Option (List Atom)) (code : List Atom) (r : Except VmError Atom),
        resolveSym vm s = some (.closure us code) →
        evaluate (f + 1) vm ctx (.symbol s :: args) = some (vm1, r) →
        vm1 = vm →
        evaluate (f + 1) vm1 ctx (.symbol s :: args) = some (vm1, r))
    ∧ evaluate 20 vmWithF rootContext [.symbol "f", .number 5]
        = some (vmWithF, .ok (.number 5))
    ∧ resolveSym vmWithF "f"
        = some (.closure (some [.symbol "x"]) [.symbol "+", .upvalue ⟨0, "x"⟩]) := by
  refine ⟨fun f vm ctx s args us code h => ?_,
    fun f vm vm1 ctx s args us code r h h1 hsame => ?_, by decide, by decide⟩
  · simp only [evaluate, h]
  · subst hsame; exact h1

/-- Witness for C3 at the stored closure `f` applied to `5`. -/
theorem c3_closure_call_witness :
    evaluate 20 vmWithF rootContext [.symbol "f", .number 5]
      = evaluate 19 vmWithF
          (bindParams ⟨some [.symbol "x"], [.symbol "+", .upvalue ⟨0, "x"⟩]⟩ [.number 5])
          (bindParams ⟨some [.symbol "x"], [.symbol "+", .upvalue ⟨0, "x"⟩]⟩
            [.number 5]).code
    ∧ evaluate 20 vmWithF rootContext [.symbol "f", .number 5]
      = some (vmWithF, .ok (.number 5)) :=
  ⟨c3_closure_call.1 19 vmWithF rootContext "f" [.number 5] (some [.symbol "x"])
      [.symbol "+", .upvalue ⟨0, "x"⟩] (by decide),
   c3_closure_call.2.1 19 vmWithF vmWithF rootContext "f" [.number 5]
      (some [.symbol "x"]) [.symbol "+", .upvalue ⟨0, "x"⟩] (.ok (.number 5))
      (by decide) c3_closure_call.2.2.1 rfl⟩

/-- C1 (code bug): `"` is ASCII punctuation, so from the scanning state
`None` the Symbol arm captures it before the String arm is tried; the
string-reading state is never entered from `None`.  `parse("\"abc")`
therefore returns `Ok([Symbol("\"abc")])`, not `IncompleteString`, and in
general a `"` seen in state `None` starts a Symbol token. -/
theorem c1_string_parse_bug :
    parseStr "\"abc" = .ok [.symbol "\"abc"]
    ∧ parseStr "\"abc" ≠ .error .incompleteString
    ∧ (∀ (recur : List Char → Except ParseError (List Atom)) (rest : List Char)
        (pos : Nat) (atoms : List Atom),
        parseGo recur ('"' :: rest) pos .noneSt atoms
          = parseGo recur rest (pos + 1) (.symbolSt ['"']) atoms) :=
  ⟨by decide, by decide, fun recur rest pos atoms => rfl⟩

unseal Rat.add Rat.mul Rat.inv in
/-- C8 (code bug): `.` is ASCII punctuation, so from the scanning state
`None` the Symbol arm captures it before the Number arm is tried:
`parse(".5")` yields `Ok([Symbol(".5")])` rather than a Number atom, and in
general a `.` seen in state `None` starts a Symbol token.  An input starting
with a digit does enter the number path (`parse("5")` is `Number 5`). -/
theorem c8_dot_number_bug :
    parseStr ".5" = .ok [.symbol ".5"]
    ∧ (∀ (recur : List Char → Except ParseError (List Atom)) (rest : List Char)
        (pos : Nat) (atoms : List Atom),
        parseGo recur ('.' :: rest) pos .noneSt atoms
          = parseGo recur rest (pos + 1) (.symbolSt ['.']) atoms)
    ∧ parseStr "5" = .ok [.number 5] :=
  ⟨by decide, fun recur rest pos atoms => rfl, by decide⟩
